import Mathlib

/-!
Shallow embedding of the extension host of `scc`
(`extension_manager.py`, `extension_api.py`), and proofs of the
frozen claims about it.

Modelling conventions:
* Python dicts (insertion ordered, unique keys) are association lists
  `List (String × β)`; `aset` is `d[k] = v` (replace in place or append),
  `adel` is `d.pop(k, None)`.
* Python object identities (module objects, extension instances) are `Nat`
  identifiers; `Option Nat` models a possibly-absent reference.
* Extension code is arbitrary, so its behaviour is an oracle parameter:
  `actRaises i` says whether instance `i`'s `activate`/`contribute_menu`
  body raises, `onKey i` gives the result of instance `i`'s `on_key`
  (`none` = the hook raised, `some r` = it returned `r`).
* "A hook was invoked" is made observable: dispatch functions return the
  list of module names whose hook was called, `shutdown_all` appends to a
  `shutdownLog`.
-/

/-- Association-list lookup: Python `d.get(k)` / `k in d`. -/
def alookup {β : Type} : List (String × β) → String → Option β
  | [], _ => none
  | (k, v) :: rest, n => if k = n then some v else alookup rest n

/-- Association-list store: Python `d[k] = v` (replace the existing entry
in place, else append — insertion order preserved). -/
def aset {β : Type} : List (String × β) → String → β → List (String × β)
  | [], n, v => [(n, v)]
  | (k, w) :: rest, n, v =>
      if k = n then (n, v) :: rest else (k, w) :: aset rest n v

/-- Association-list delete: Python `d.pop(k, None)`. -/
def adel {β : Type} : List (String × β) → String → List (String × β)
  | [], _ => []
  | (k, w) :: rest, n => if k = n then rest else (k, w) :: adel rest n

/-- Python `stem.startswith("_")`: the reserved-marker test on the first
character (defined over the character list so it evaluates in proofs). -/
def startsWithMarker (s : String) : Bool :=
  match s.data with
  | [] => false
  | c :: _ => c = '_'

/-- The keys of an association list (Python `d.keys()`). -/
def akeys {β : Type} (d : List (String × β)) : List String :=
  d.map Prod.fst

/-- Embedding of `ExtensionInfo` (src/extension_manager.py:33-50):
the per-extension record.  `inst` embeds the Python attribute
`instance` (a Lean keyword); `module` and `inst` hold object identities. -/
structure ExtensionInfo where
  module_name : String
  file_path : String
  module : Option Nat
  inst : Option Nat
  enabled : Bool
  error : Option String
deriving DecidableEq, Repr

/-- Embedding of the `ExtensionManager` mutable state:
`extensions` is the record table (Python dict, insertion ordered),
`state` the persisted enabled-flag map (`extensions.json` content),
`shuttingDown` the one-shot flag, `shutdownLog` the observable trace of
`on_shutdown` invocations (by module name, in call order). -/
structure MState where
  extensions : List (String × ExtensionInfo)
  state : List (String × Bool)
  shuttingDown : Bool
  shutdownLog : List String
deriving DecidableEq, Repr

/-- Embedding of `ExtensionManager._save_state`
(src/extension_manager.py:120-126): rewrite the persisted map from the
current table's enabled flags. -/
def saveState (st : MState) : MState :=
  { st with state := st.extensions.map (fun p => (p.1, p.2.enabled)) }

/-- Embedding of `ExtensionManager._activate`
(src/extension_manager.py:196-207).  If the record has an instance, run
`activate` then `contribute_menu`; on success `error` is cleared, and if
the body raises the traceback is stored in `error` (the `enabled` flag is
not touched).  `actRaises i` is the oracle for whether instance `i`'s
activation body raises. -/
def activateRec (actRaises : Nat → Bool) (info : ExtensionInfo) : ExtensionInfo :=
  match info.inst with
  | none => info
  | some i =>
      if actRaises i then { info with error := some "traceback" }
      else { info with error := none }

/-- Embedding of `ExtensionManager._deactivate`
(src/extension_manager.py:209-217): calls hooks on the instance
(exceptions caught and logged) but changes no record field. -/
def deactivateRec (info : ExtensionInfo) : ExtensionInfo :=
  info

/-- Embedding of `ExtensionManager.enable` (src/extension_manager.py:219-224). -/
def enable (actRaises : Nat → Bool) (st : MState) (n : String) : MState :=
  match alookup st.extensions n with
  | none => st
  | some info =>
      if info.enabled then st
      else
        let info := activateRec actRaises { info with enabled := true }
        saveState { st with extensions := aset st.extensions n info }

/-- Embedding of `ExtensionManager.disable` (src/extension_manager.py:226-231). -/
def disable (st : MState) (n : String) : MState :=
  match alookup st.extensions n with
  | none => st
  | some info =>
      if info.enabled then
        let info := { deactivateRec info with enabled := false }
        saveState { st with extensions := aset st.extensions n info }
      else st

/-- The guard of every dispatch loop (src/extension_manager.py:334-375):
`if info.enabled and info.instance:`.  Note it does not consult
`info.error`. -/
def dispatchGuard (info : ExtensionInfo) : Bool :=
  info.enabled && info.inst.isSome

/-- The module names whose hook is invoked by `dispatch_file_open`,
`dispatch_file_save`, `dispatch_build_start` and `dispatch_build_end`
(src/extension_manager.py:345-375): all four loops are identical pure
fan-outs — each record passing the guard has its hook called (exceptions
caught per recipient). -/
def dispatchTargets (t : List (String × ExtensionInfo)) : List String :=
  (t.filter (fun p => dispatchGuard p.2)).map Prod.fst

/-- Embedding of `ExtensionManager.dispatch_key`
(src/extension_manager.py:334-343).  `onKey i` is the oracle for instance
`i`'s `on_key`: `none` = raised (caught), `some r` = returned `r`.
Returns the names invoked (in order) and the dispatch result: a handler
returning `"break"` short-circuits and `"break"` is returned. -/
def dispatchKeyRun (onKey : Nat → Option (Option String)) :
    List (String × ExtensionInfo) → List String × Option String
  | [] => ([], none)
  | (n, info) :: rest =>
      match info.inst with
      | some i =>
          if info.enabled then
            if onKey i = some (some "break") then ([n], some "break")
            else
              let r := dispatchKeyRun onKey rest
              (n :: r.1, r.2)
          else dispatchKeyRun onKey rest
      | none => dispatchKeyRun onKey rest

example :
    dispatchTargets
      [("a", ⟨"a", "p", some 0, some 0, true, none⟩),
       ("b", ⟨"b", "q", none, none, false, some "tb"⟩)] = ["a"] := by
  decide

/-- Generic association-list lookup for an arbitrary value type
(used by the settings store, whose values are JSON documents). -/
def slookup {V : Type} : List (String × V) → String → Option V
  | [], _ => none
  | (k, v) :: rest, n => if k = n then some v else slookup rest n

/-- Generic association-list store (`d[k] = v`). -/
def sset {V : Type} : List (String × V) → String → V → List (String × V)
  | [], n, v => [(n, v)]
  | (k, w) :: rest, n, v =>
      if k = n then (n, v) :: rest else (k, w) :: sset rest n v

/-- Embedding of the per-extension settings state of `BaseExtension`
(src/extension_api.py:100-133).  `V` is the type of JSON-serialisable
values; `json.dumps`/`json.loads` round-tripping is modelled as the
identity on `V`.  `cache` is `_settings_cache` (starts empty),
`file` the settings file: `none` = does not exist, `some none` = exists
but unreadable/corrupt (`json.loads` raised), `some (some m)` = parses
to the map `m`. -/
structure SettingsStore (V : Type) where
  cache : List (String × V)
  file : Option (Option (List (String × V)))
deriving Repr

/-- Embedding of `BaseExtension._load_settings`
(src/extension_api.py:119-126): the parsed file if it exists and parses,
else a copy of the declared defaults. -/
def loadSettings {V : Type} (defaults : List (String × V))
    (st : SettingsStore V) : List (String × V) :=
  match st.file with
  | some (some m) => m
  | _ => defaults

/-- Embedding of `BaseExtension.get_setting` (src/extension_api.py:100-105):
populate the cache if empty, then
`self._settings_cache.get(key, defaults.get(key))`.
Returns the value read and the updated store. -/
def getSetting {V : Type} (defaults : List (String × V)) (key : String)
    (st : SettingsStore V) : Option V × SettingsStore V :=
  let cache := if st.cache.isEmpty then loadSettings defaults st else st.cache
  (((slookup cache key).orElse (fun _ => slookup defaults key)),
   { st with cache := cache })

/-- Embedding of `BaseExtension.set_setting` (src/extension_api.py:107-112)
followed by `_save_settings` (src/extension_api.py:128-133): update the
cache and write it through to the file (a successful write is assumed;
the source swallows write failures). -/
def setSetting {V : Type} (defaults : List (String × V)) (key : String)
    (v : V) (st : SettingsStore V) : SettingsStore V :=
  let cache := if st.cache.isEmpty then loadSettings defaults st else st.cache
  let cache := sset cache key v
  { cache := cache, file := some (some cache) }

/-- A fresh `BaseExtension` instance after a simulated restart: the
in-memory `_settings_cache` is discarded, the settings file survives. -/
def freshStore {V : Type} (st : SettingsStore V) : SettingsStore V :=
  { cache := [], file := st.file }

/-! Embedding of `ExtensionManager._quick_parse_meta`
(src/extension_manager.py:391-414).  The Python code runs, per key, the
regex `^\s+key\s*[=:]\s*["'](.+?)["']` with `re.MULTILINE` over the file
text.  Because the literal key and the characters `=`, `:` and the quotes
are not whitespace, the regex engine's backtracking is deterministic, so
the search is embedded by a direct scanner: try a match at every line
start, leftmost first; at one start, skip the (non-empty) whitespace run,
expect the key, skip whitespace, expect `=` or `:`, skip whitespace,
expect a quote, then take the lazily-shortest non-empty run of
non-newline characters ending at a quote. -/

/-- Python `\s` on ASCII text: space, tab, newline, carriage return,
vertical tab, form feed. -/
def isPySpace (c : Char) : Bool :=
  c = ' ' ∨ c = Char.ofNat 9 ∨ c = Char.ofNat 10 ∨ c = Char.ofNat 13 ∨
  c = Char.ofNat 11 ∨ c = Char.ofNat 12

/-- The regex character class `["']`. -/
def isQuote (c : Char) : Bool :=
  c = Char.ofNat 34 ∨ c = Char.ofNat 39

/-- Strip a literal prefix, or fail. -/
def stripPrefixChars : List Char → List Char → Option (List Char)
  | [], cs => some cs
  | _ :: _, [] => none
  | k :: ks, c :: cs => if c = k then stripPrefixChars ks cs else none

/-- `(.+?)["']` after the first content character: collect characters
until the first quote (lazy shortest match); a newline aborts (`.` does
not match it). -/
def capGo (acc : List Char) : List Char → Option (List Char)
  | [] => none
  | c :: rest =>
      if isQuote c then some acc.reverse
      else if c = Char.ofNat 10 then none
      else capGo (c :: acc) rest

/-- `(.+?)["']`: at least one non-newline content character, then the
earliest closing quote. -/
def lazyCapture : List Char → Option (List Char)
  | [] => none
  | c :: rest =>
      if c = Char.ofNat 10 then none
      else capGo [c] rest

/-- Attempt the metadata pattern at one `^` anchor position. -/
def matchAt (key : List Char) (cs : List Char) : Option (List Char) :=
  match cs with
  | [] => none
  | c :: _ =>
      if isPySpace c then
        match stripPrefixChars key (cs.dropWhile isPySpace) with
        | none => none
        | some r1 =>
            match r1.dropWhile isPySpace with
            | [] => none
            | d :: r3 =>
                if d = '=' ∨ d = ':' then
                  match r3.dropWhile isPySpace with
                  | [] => none
                  | q :: r5 => if isQuote q then lazyCapture r5 else none
                else none
      else none

/-- The suffixes of the text starting just after each newline: together
with the whole text these are the `^` anchor positions of
`re.MULTILINE`, in leftmost order. -/
def afterNewlines : List Char → List (List Char)
  | [] => []
  | c :: rest =>
      if c = Char.ofNat 10 then rest :: afterNewlines rest
      else afterNewlines rest

/-- First success of `f` along a list (leftmost regex match). -/
def firstSome {α β : Type} (f : α → Option β) : List α → Option β
  | [] => none
  | a :: rest =>
      match f a with
      | some b => some b
      | none => firstSome f rest

/-- `re.search` of the metadata pattern for `key` over the text. -/
def reSearchMeta (key : List Char) (cs : List Char) : Option (List Char) :=
  firstSome (matchAt key) (cs :: afterNewlines cs)

/-- Python `str.title()` on ASCII: first letter of each alphabetic run
uppercased, the rest lowercased. -/
def pyTitleGo (prevAlpha : Bool) : List Char → List Char
  | [] => []
  | c :: rest =>
      (if c.isAlpha then (if prevAlpha then c.toLower else c.toUpper) else c)
        :: pyTitleGo c.isAlpha rest

/-- `stem.replace("_", " ").title()` — the default `name`. -/
def pyTitle (s : String) : String :=
  String.mk (pyTitleGo false (s.data.map (fun c => if c = '_' then ' ' else c)))

/-- The metadata record `_quick_parse_meta` returns: a dict with exactly
these six keys. -/
structure ParsedMeta where
  name : String
  version : String
  description : String
  author : String
  icon : String
  category : String
deriving DecidableEq, Repr

/-- The initial dict of `_quick_parse_meta` (src/extension_manager.py:394-401):
the fixed defaults, `name` defaulting to the title-cased stem. -/
def metaDefaults (stem : String) : ParsedMeta :=
  ⟨pyTitle stem, "?", "", "Unknown", "🧩", "Other"⟩

/-- Embedding of `ExtensionManager._quick_parse_meta`
(src/extension_manager.py:391-414).  `src` is `none` when
`path.read_text` raises (the `except` path), else the file's characters.
Each of the six fields independently takes its first regex match, else
keeps its default. -/
def quickParseMeta (stem : String) (src : Option (List Char)) : ParsedMeta :=
  let d := metaDefaults stem
  match src with
  | none => d
  | some cs =>
      { name := ((reSearchMeta "name".data cs).map String.mk).getD d.name
        version := ((reSearchMeta "version".data cs).map String.mk).getD d.version
        description := ((reSearchMeta "description".data cs).map String.mk).getD d.description
        author := ((reSearchMeta "author".data cs).map String.mk).getD d.author
        icon := ((reSearchMeta "icon".data cs).map String.mk).getD d.icon
        category := ((reSearchMeta "category".data cs).map String.mk).getD d.category }

/-- One entry returned by `list_marketplace`: the parsed metadata plus
the `module_name` and `file_path` keys added at
src/extension_manager.py:386-387. -/
structure MarketEntry where
  meta : ParsedMeta
  module_name : String
  file_path : String
deriving DecidableEq, Repr

/-- Embedding of `ExtensionManager.list_marketplace`
(src/extension_manager.py:378-389): over the sorted catalog files
(stem, path string, readable source), skip reserved stems and stems
present in the installed record table, and emit one parsed entry for
each remaining file. -/
def listMarketplace (installed : List (String × ExtensionInfo)) :
    List (String × String × Option (List Char)) → List MarketEntry
  | [] => []
  | (stem, path, src) :: rest =>
      if startsWithMarker stem ∨ (alookup installed stem).isSome then
        listMarketplace installed rest
      else
        ⟨quickParseMeta stem src, stem, path⟩ :: listMarketplace installed rest

/-! Embedding of the keybinding registry (src/extension_api.py:38,136-158).
`_keybindings: Dict[str, str] = {}` is a class-level attribute of
`BaseExtension`.  Python attribute resolution for `self._keybindings` is
instance `__dict__`, then the instance's class, then the base class; item
assignment (`self._keybindings[k] = bid`) mutates the dict found there
without creating an instance attribute.  The model tracks two instances
of two subclasses and each layer that could hold its own `_keybindings`
dict. -/

/-- The two extension instances of the model. -/
inductive ExtInst
  | i1
  | i2
deriving DecidableEq, Repr

/-- The `_keybindings` dicts visible in the attribute-resolution chain:
`base` is `BaseExtension._keybindings`; `cls1`/`cls2` are present iff the
respective subclass assigns its own `_keybindings`; `obj1`/`obj2` iff the
respective instance does. -/
structure KbWorld where
  base : List (String × String)
  cls1 : Option (List (String × String))
  cls2 : Option (List (String × String))
  obj1 : Option (List (String × String))
  obj2 : Option (List (String × String))
deriving DecidableEq, Repr

/-- Python attribute lookup of `self._keybindings`. -/
def readKb (w : KbWorld) : ExtInst → List (String × String)
  | .i1 => ((w.obj1).orElse (fun _ => w.cls1)).getD w.base
  | .i2 => ((w.obj2).orElse (fun _ => w.cls2)).getD w.base

/-- In-place mutation of the dict that attribute lookup resolved to. -/
def writeKb (w : KbWorld) (i : ExtInst) (d : List (String × String)) : KbWorld :=
  match i with
  | .i1 =>
      if w.obj1.isSome then { w with obj1 := some d }
      else if w.cls1.isSome then { w with cls1 := some d }
      else { w with base := d }
  | .i2 =>
      if w.obj2.isSome then { w with obj2 := some d }
      else if w.cls2.isSome then { w with cls2 := some d }
      else { w with base := d }

/-- Embedding of `BaseExtension.register_keybinding`
(src/extension_api.py:136-144): `self._keybindings[key_sequence] = bid`
where `bid` is the identifier the host's bind call returned. -/
def registerKeybinding (w : KbWorld) (i : ExtInst) (k bid : String) : KbWorld :=
  writeKb w i (aset (readKb w i) k bid)

/-- Embedding of `BaseExtension.unregister_keybinding`
(src/extension_api.py:146-153): `self._keybindings.pop(key_sequence, None)`
(the unbind call may raise; it is caught and changes no model state). -/
def unregisterKeybinding (w : KbWorld) (i : ExtInst) (k : String) : KbWorld :=
  writeKb w i (adel (readKb w i) k)

/-- Embedding of `BaseExtension.unregister_all_keybindings`
(src/extension_api.py:155-158): pop every key of the snapshot
`list(self._keybindings)`. -/
def unregisterAllKeybindings (w : KbWorld) (i : ExtInst) : KbWorld :=
  (akeys (readKb w i)).foldl (fun w k => unregisterKeybinding w i k) w

/-- Outcome of one `_load_extension` run (src/extension_manager.py:139-170)
for a given file, abstracting the Python import machinery:
`noSpec` — `spec_from_file_location` gave no spec/loader (return `None`);
`noClass` — the module executed but holds no `BaseExtension` subclass
(return `None`, no record); `raised` — some step raised, caught at line
164; `ok` — module executed and the class instantiated. -/
inductive LoadOutcome
  | noSpec
  | noClass
  | raised (tb : String)
  | ok (moduleId instId : Nat)
deriving DecidableEq, Repr

/-- Embedding of `ExtensionManager._load_extension`
(src/extension_manager.py:139-170).  On `raised` the record is created
with the traceback as `error`, no module, no instance, and
`enabled := false` (line 167); on `ok` the record gets the persisted
enabled flag (default `true`) and, when enabled, is activated. -/
def loadExtension (actRaises : Nat → Bool) (outcome : LoadOutcome)
    (st : MState) (n : String) (path : String) : MState :=
  match outcome with
  | .noSpec => st
  | .noClass => st
  | .raised tb =>
      { st with extensions := aset st.extensions n ⟨n, path, none, none, false, some tb⟩ }
  | .ok m i =>
      let en := (alookup st.state n).getD true
      let info : ExtensionInfo := ⟨n, path, some m, some i, en, none⟩
      if en then
        { st with extensions := aset st.extensions n (activateRec actRaises info) }
      else
        { st with extensions := aset st.extensions n info }

/-- Embedding of `ExtensionManager.discover_and_load`
(src/extension_manager.py:129-137): iterate the sorted `*.py` stems
(`files`), skip stems starting with `"_"` and stems already tracked,
load the rest.  `outcomes` maps each stem to its (deterministic) load
outcome and `paths` to its path string. -/
def discoverAndLoad (actRaises : Nat → Bool) (outcomes : String → LoadOutcome)
    (paths : String → String) : List String → MState → MState
  | [], st => st
  | f :: rest, st =>
      let st :=
        if startsWithMarker f then st
        else
          match alookup st.extensions f with
          | some _ => st
          | none => loadExtension actRaises (outcomes f) st f (paths f)
      discoverAndLoad actRaises outcomes paths rest st

/-- Outcome of the re-import block inside `reload_extension`
(src/extension_manager.py:282-297): `noSpec` — no spec/loader, nothing
assigned; `execRaised` — `exec_module` (or earlier) raised, only `error`
is set; `noClass` — new module has no extension class, nothing assigned;
`instRaised` — `info.module` was assigned, then `ext_cls()` raised;
`ok` — module and fresh instance assigned, `error` cleared. -/
inductive ReloadOutcome
  | noSpec
  | execRaised (tb : String)
  | noClass
  | instRaised (moduleId : Nat) (tb : String)
  | ok (moduleId instId : Nat)
deriving DecidableEq, Repr

/-- Embedding of `ExtensionManager.reload_extension`
(src/extension_manager.py:273-300).  Note the source: on failure the old
`info.instance` is left in place, and when the record was enabled before
the call it is re-enabled and `_activate` runs on whatever instance the
record now holds. -/
def reloadExtension (actRaises : Nat → Bool) (outcome : ReloadOutcome)
    (st : MState) (n : String) : MState :=
  match alookup st.extensions n with
  | none => st
  | some info =>
      let wasEnabled := info.enabled
      let info := deactivateRec info
      let info :=
        match outcome with
        | .noSpec => info
        | .noClass => info
        | .execRaised tb => { info with error := some tb }
        | .instRaised m tb => { info with module := some m, error := some tb }
        | .ok m i => { info with module := some m, inst := some i, error := none }
      let info :=
        if wasEnabled then activateRec actRaises { info with enabled := true }
        else info
      { st with extensions := aset st.extensions n info }

/-- Embedding of `ExtensionManager.shutdown_all`
(src/extension_manager.py:310-331): guarded by the one-shot
`_shutting_down` flag; deactivates records that are enabled with an
instance (no record-field effect), then invokes `on_shutdown` on every
record holding an instance (exceptions caught — the invocation still
happened, so it is logged), then saves state. -/
def shutdownAll (st : MState) : MState :=
  if st.shuttingDown then st
  else
    saveState
      { st with
        shuttingDown := true
        shutdownLog :=
          st.shutdownLog ++
            (st.extensions.filter (fun p => p.2.inst.isSome)).map Prod.fst }



/-- A user-initiated enable/disable action (the operations that can
follow a failed load without touching the file system). -/
inductive ToggleOp
  | en (n : String)
  | dis (n : String)
deriving DecidableEq, Repr

/-- Run one enable/disable action. -/
def applyToggle (actRaises : Nat → Bool) (st : MState) : ToggleOp → MState
  | .en n => enable actRaises st n
  | .dis n => disable st n

/-- Run a sequence of enable/disable actions. -/
def applyToggles (actRaises : Nat → Bool) : List ToggleOp → MState → MState
  | [], st => st
  | op :: rest, st => applyToggles actRaises rest (applyToggle actRaises st op)

/-! ### Association-list lemmas -/

@[simp] theorem akeys_nil {β : Type} : akeys ([] : List (String × β)) = [] := rfl

@[simp] theorem akeys_cons {β : Type} (k : String) (v : β) (t : List (String × β)) :
    akeys ((k, v) :: t) = k :: akeys t := rfl

theorem aset_cons_eq {β : Type} {k n : String} (h : k = n) (w v : β)
    (t : List (String × β)) : aset ((k, w) :: t) n v = (n, v) :: t := by
  simp [aset, h]

theorem aset_cons_ne {β : Type} {k n : String} (h : ¬k = n) (w v : β)
    (t : List (String × β)) : aset ((k, w) :: t) n v = (k, w) :: aset t n v := by
  simp [aset, h]

theorem alookup_cons_eq {β : Type} {k n : String} (h : k = n) (w : β)
    (t : List (String × β)) : alookup ((k, w) :: t) n = some w := by
  simp [alookup, h]

theorem alookup_cons_ne {β : Type} {k n : String} (h : ¬k = n) (w : β)
    (t : List (String × β)) : alookup ((k, w) :: t) n = alookup t n := by
  simp [alookup, h]

theorem alookup_aset_self {β : Type} (t : List (String × β)) (n : String) (v : β) :
    alookup (aset t n v) n = some v := by
  induction t with
  | nil => simp [aset, alookup]
  | cons p rest ih =>
      obtain ⟨k, w⟩ := p
      by_cases h : k = n
      · rw [aset_cons_eq h, alookup_cons_eq rfl]
      · rw [aset_cons_ne h, alookup_cons_ne h]
        exact ih

theorem alookup_aset_ne {β : Type} (t : List (String × β)) (n m : String) (v : β)
    (h : ¬m = n) : alookup (aset t n v) m = alookup t m := by
  induction t with
  | nil =>
      rw [show aset ([] : List (String × β)) n v = [(n, v)] from rfl,
        alookup_cons_ne (fun hh => h hh.symm)]
  | cons p rest ih =>
      obtain ⟨k, w⟩ := p
      by_cases hk : k = n
      · rw [aset_cons_eq hk, alookup_cons_ne (fun hh => h hh.symm),
          alookup_cons_ne (fun hh => h (hh.symm.trans hk))]
      · by_cases hm : k = m
        · rw [aset_cons_ne hk, alookup_cons_eq hm, alookup_cons_eq hm]
        · rw [aset_cons_ne hk, alookup_cons_ne hm, alookup_cons_ne hm]
          exact ih

theorem akeys_aset_mem {β : Type} (t : List (String × β)) (n : String) (v : β)
    (h : n ∈ akeys t) : akeys (aset t n v) = akeys t := by
  induction t with
  | nil => simp at h
  | cons p rest ih =>
      obtain ⟨k, w⟩ := p
      by_cases hk : k = n
      · rw [aset_cons_eq hk, akeys_cons, akeys_cons, hk]
      · have h' : n ∈ akeys rest := by
          rcases List.mem_cons.mp h with h1 | h1
          · exact absurd h1.symm hk
          · exact h1
        rw [aset_cons_ne hk, akeys_cons, akeys_cons, ih h']

theorem akeys_aset_not_mem {β : Type} (t : List (String × β)) (n : String) (v : β)
    (h : n ∉ akeys t) : akeys (aset t n v) = akeys t ++ [n] := by
  induction t with
  | nil => simp [aset]
  | cons p rest ih =>
      obtain ⟨k, w⟩ := p
      have hk : ¬k = n := fun hh => h (by simp [hh])
      have h' : n ∉ akeys rest := fun hh => h (by simp [hh])
      rw [aset_cons_ne hk, akeys_cons, akeys_cons, ih h', List.cons_append]

theorem akeys_aset_nodup {β : Type} (t : List (String × β)) (n : String) (v : β)
    (h : (akeys t).Nodup) : (akeys (aset t n v)).Nodup := by
  by_cases hm : n ∈ akeys t
  · rw [akeys_aset_mem t n v hm]
    exact h
  · rw [akeys_aset_not_mem t n v hm]
    simp [List.nodup_append, h, hm]

theorem alookup_eq_some_mem {β : Type} {t : List (String × β)} {n : String} {v : β}
    (h : alookup t n = some v) : (n, v) ∈ t := by
  induction t with
  | nil => simp [alookup] at h
  | cons p rest ih =>
      obtain ⟨k, w⟩ := p
      by_cases hk : k = n
      · rw [alookup_cons_eq hk] at h
        subst hk
        rw [← Option.some.inj h]
        exact List.mem_cons_self _ _
      · rw [alookup_cons_ne hk] at h
        exact List.mem_cons_of_mem _ (ih h)

theorem alookup_eq_none_iff {β : Type} (t : List (String × β)) (n : String) :
    alookup t n = none ↔ n ∉ akeys t := by
  induction t with
  | nil => simp [alookup]
  | cons p rest ih =>
      obtain ⟨k, w⟩ := p
      by_cases hk : k = n
      · rw [alookup_cons_eq hk, akeys_cons]
        simp [hk]
      · rw [alookup_cons_ne hk, akeys_cons]
        simp only [List.mem_cons, not_or, ih]
        constructor
        · intro hn
          exact ⟨fun hh => hk hh.symm, hn⟩
        · intro hn
          exact hn.2

theorem mem_keys_of_mem {β : Type} {t : List (String × β)} {n : String} {v : β}
    (h : (n, v) ∈ t) : n ∈ akeys t :=
  List.mem_map_of_mem Prod.fst h

theorem mem_alookup_of_nodup {β : Type} {t : List (String × β)} {n : String} {v : β}
    (hnd : (akeys t).Nodup) (h : (n, v) ∈ t) : alookup t n = some v := by
  induction t with
  | nil => simp at h
  | cons p rest ih =>
      obtain ⟨k, w⟩ := p
      rw [akeys_cons, List.nodup_cons] at hnd
      rcases List.mem_cons.mp h with h1 | h1
      · rw [alookup_cons_eq (congrArg Prod.fst h1).symm]
        exact congrArg some (congrArg Prod.snd h1).symm
      · by_cases hk : k = n
        · exact absurd (hk ▸ mem_keys_of_mem h1) hnd.1
        · rw [alookup_cons_ne hk]
          exact ih hnd.2 h1

/-! ### Dispatch lemmas -/

theorem mem_dispatchTargets_of {t : List (String × ExtensionInfo)} {n : String}
    {info : ExtensionInfo} (hmem : (n, info) ∈ t) (hg : dispatchGuard info = true) :
    n ∈ dispatchTargets t := by
  unfold dispatchTargets
  exact List.mem_map_of_mem Prod.fst (List.mem_filter.mpr ⟨hmem, hg⟩)

theorem of_mem_dispatchTargets {t : List (String × ExtensionInfo)} {n : String}
    (h : n ∈ dispatchTargets t) :
    ∃ info, (n, info) ∈ t ∧ dispatchGuard info = true := by
  unfold dispatchTargets at h
  obtain ⟨⟨m, info⟩, hmem, heq⟩ := List.mem_map.mp h
  obtain ⟨hmem', hg⟩ := List.mem_filter.mp hmem
  exact ⟨info, heq ▸ hmem', hg⟩

theorem dispatchTargets_iff {t : List (String × ExtensionInfo)} {n : String}
    {info : ExtensionInfo} (hnd : (akeys t).Nodup) (hmem : (n, info) ∈ t) :
    n ∈ dispatchTargets t ↔ dispatchGuard info = true := by
  constructor
  · intro h
    obtain ⟨info', hmem', hg⟩ := of_mem_dispatchTargets h
    have : some info = some info' :=
      (mem_alookup_of_nodup hnd hmem).symm.trans (mem_alookup_of_nodup hnd hmem')
    rw [Option.some.inj this]
    exact hg
  · exact mem_dispatchTargets_of hmem

theorem dispatchTargets_cons (n : String) (info : ExtensionInfo)
    (t : List (String × ExtensionInfo)) :
    dispatchTargets ((n, info) :: t) =
      if dispatchGuard info then n :: dispatchTargets t else dispatchTargets t := by
  by_cases h : dispatchGuard info
  · simp [dispatchTargets, List.filter_cons, h]
  · simp [dispatchTargets, List.filter_cons, h]

theorem dispatchKeyRun_leading (onKey : Nat → Option (Option String))
    (t : List (String × ExtensionInfo)) :
    (dispatchKeyRun onKey t).1 <+: dispatchTargets t := by
  induction t with
  | nil => simp [dispatchKeyRun, dispatchTargets]
  | cons p rest ih =>
      obtain ⟨n, info⟩ := p
      rw [dispatchTargets_cons]
      match hi : info.inst with
      | none =>
          have hg : dispatchGuard info = false := by
            simp [dispatchGuard, hi]
          simpa [dispatchKeyRun, hi, hg] using ih
      | some i =>
          by_cases he : info.enabled
          · have hg : dispatchGuard info = true := by
              simp [dispatchGuard, hi, he]
            by_cases hb : onKey i = some (some "break")
            · simp [dispatchKeyRun, hi, he, hb, hg]
            · simp only [dispatchKeyRun, hi, he, if_true, hb, if_false, hg,
                if_true, ite_true]
              exact (List.prefix_cons_inj n).mpr ih
          · have hg : dispatchGuard info = false := by
              simp [dispatchGuard, he]
            simpa [dispatchKeyRun, hi, he, hg] using ih

theorem dispatchKeyRun_no_break (onKey : Nat → Option (Option String))
    (hnb : ∀ i, ¬onKey i = some (some "break"))
    (t : List (String × ExtensionInfo)) :
    (dispatchKeyRun onKey t).1 = dispatchTargets t := by
  induction t with
  | nil => simp [dispatchKeyRun, dispatchTargets]
  | cons p rest ih =>
      obtain ⟨n, info⟩ := p
      rw [dispatchTargets_cons]
      match hi : info.inst with
      | none =>
          have hg : dispatchGuard info = false := by
            simp [dispatchGuard, hi]
          simpa [dispatchKeyRun, hi, hg] using ih
      | some i =>
          by_cases he : info.enabled
          · have hg : dispatchGuard info = true := by
              simp [dispatchGuard, hi, he]
            simp [dispatchKeyRun, hi, he, hnb i, hg, ih]
          · have hg : dispatchGuard info = false := by
              simp [dispatchGuard, he]
            simpa [dispatchKeyRun, hi, he, hg] using ih

/-! ### C1 — dispatch guard vs. the error invariant -/

/-- C1 counterexample: the claim states that a record whose `activate`
raised (error detail set, `enabled` still true) receives no dispatch
calls.  On the code, loading `bad.py` whose activation raises (outcome
`ok`, `actRaises` true) yields exactly that record — and every dispatch
loop still invokes its hook, because the guard at
src/extension_manager.py:336/347/354/362/370 tests only
`info.enabled and info.instance` and never `info.error`. -/
theorem claim_C1_counterexample :
    alookup (loadExtension (fun _ => true) (LoadOutcome.ok 5 7)
        ⟨[], [], false, []⟩ "bad" "bad.py").extensions "bad"
      = some ⟨"bad", "bad.py", some 5, some 7, true, some "traceback"⟩
    ∧ dispatchTargets (loadExtension (fun _ => true) (LoadOutcome.ok 5 7)
        ⟨[], [], false, []⟩ "bad" "bad.py").extensions = ["bad"]
    ∧ (dispatchKeyRun (fun _ => some none)
        (loadExtension (fun _ => true) (LoadOutcome.ok 5 7)
          ⟨[], [], false, []⟩ "bad" "bad.py").extensions).1 = ["bad"] := by
  decide

/-- C1 (amended): for `dispatch_file_open`, `dispatch_file_save`,
`dispatch_build_start` and `dispatch_build_end`, the hook of a record is
invoked iff the record has `enabled = true` and an instance — the error
detail is not consulted, so a record whose `activate` raised (error set,
enabled still true, instance present) does receive dispatch calls;
`dispatch_key` invokes a prefix of that same sequence, the whole of it
when no handler returns "break". -/
theorem claim_C1_dispatch_guard (t : List (String × ExtensionInfo))
    (hnd : (akeys t).Nodup) (n : String) (info : ExtensionInfo)
    (hmem : (n, info) ∈ t) (onKey : Nat → Option (Option String)) :
    (n ∈ dispatchTargets t ↔ info.enabled = true ∧ info.inst.isSome = true)
    ∧ (dispatchKeyRun onKey t).1 <+: dispatchTargets t
    ∧ ((∀ i, ¬onKey i = some (some "break")) →
        (dispatchKeyRun onKey t).1 = dispatchTargets t) := by
  refine ⟨?_, dispatchKeyRun_leading onKey t, fun h => dispatchKeyRun_no_break onKey h t⟩
  rw [dispatchTargets_iff hnd hmem]
  simp [dispatchGuard]

/-- Witness for `claim_C1_dispatch_guard` at a concrete two-record table. -/
theorem claim_C1_dispatch_guard_witness :
    ("a" ∈ dispatchTargets
        [("a", ⟨"a", "a.py", some 0, some 0, true, some "tb"⟩),
         ("b", ⟨"b", "b.py", none, none, false, none⟩)]
      ↔ true = true ∧ (some 0 : Option Nat).isSome = true) ∧
    (dispatchKeyRun (fun _ => some none)
        [("a", ⟨"a", "a.py", some 0, some 0, true, some "tb"⟩),
         ("b", ⟨"b", "b.py", none, none, false, none⟩)]).1 <+:
      dispatchTargets
        [("a", ⟨"a", "a.py", some 0, some 0, true, some "tb"⟩),
         ("b", ⟨"b", "b.py", none, none, false, none⟩)] ∧
    ((∀ i, ¬(fun _ => some none : Nat → Option (Option String)) i = some (some "break")) →
      (dispatchKeyRun (fun _ => some none)
          [("a", ⟨"a", "a.py", some 0, some 0, true, some "tb"⟩),
           ("b", ⟨"b", "b.py", none, none, false, none⟩)]).1 =
        dispatchTargets
          [("a", ⟨"a", "a.py", some 0, some 0, true, some "tb"⟩),
           ("b", ⟨"b", "b.py", none, none, false, none⟩)]) :=
  claim_C1_dispatch_guard _ (by decide) "a" ⟨"a", "a.py", some 0, some 0, true, some "tb"⟩
    (by decide) (fun _ => some none)

/-! ### C2 — reload failure semantics -/

/-- C2 counterexample: the claim states that when a reload step fails the
record ends inactive with error detail set and the prior instance
discarded.  On the code, reloading the previously active record "a"
when `exec_module` raises leaves the state completely unchanged: the
`except` branch stores the traceback, but the old instance is still in
`info.instance` (never cleared, src/extension_manager.py:295-297), the
record is re-enabled, and `_activate` re-runs the old instance and
clears the error again (src/extension_manager.py:204) — so "a" is active
with the prior instance even though the reload failed. -/
theorem claim_C2_counterexample :
    reloadExtension (fun _ => false) (ReloadOutcome.execRaised "tb")
        ⟨[("a", ⟨"a", "a.py", some 1, some 1, true, none⟩)], [("a", true)], false, []⟩ "a"
      = ⟨[("a", ⟨"a", "a.py", some 1, some 1, true, none⟩)], [("a", true)], false, []⟩ := by
  decide

/-- C2 (amended): for a tracked record that was enabled with an instance
before `reload_extension(id)`: if the re-import raises, the prior
instance is retained (not discarded), the record stays enabled and is
re-activated, ending with error detail set iff that re-activation of the
old instance raises; if the re-import succeeds, the new module and
instance are installed, the record stays enabled and ends with error
detail set iff activation of the new instance raises.  In neither case
does the enabled flag drop, so "active afterward iff reload succeeded"
fails in both directions. -/
theorem claim_C2_reload_behavior (actRaises : Nat → Bool) (st : MState)
    (n : String) (info : ExtensionInfo)
    (hlk : alookup st.extensions n = some info) (hen : info.enabled = true)
    (j : Nat) (hj : info.inst = some j) (tb : String) (m i : Nat) :
    alookup (reloadExtension actRaises (ReloadOutcome.execRaised tb) st n).extensions n
      = some { info with
               enabled := true
               error := if actRaises j then some "traceback" else none }
    ∧ alookup (reloadExtension actRaises (ReloadOutcome.ok m i) st n).extensions n
      = some { info with
               module := some m
               inst := some i
               enabled := true
               error := if actRaises i then some "traceback" else none } := by
  constructor
  · unfold reloadExtension
    rw [hlk]
    simp only [deactivateRec, hen, if_true, activateRec, hj, alookup_aset_self]
    by_cases hr : actRaises j <;> simp [hr]
  · unfold reloadExtension
    rw [hlk]
    simp only [deactivateRec, hen, if_true, activateRec, hj, alookup_aset_self]
    by_cases hr : actRaises i <;> simp [hr]

/-- Witness for `claim_C2_reload_behavior` at a concrete state. -/
theorem claim_C2_reload_behavior_witness :
    alookup (reloadExtension (fun _ => false) (ReloadOutcome.execRaised "tb")
        ⟨[("a", ⟨"a", "a.py", some 1, some 1, true, none⟩)], [], false, []⟩ "a").extensions "a"
      = some ⟨"a", "a.py", some 1, some 1, true, none⟩
    ∧ alookup (reloadExtension (fun _ => false) (ReloadOutcome.ok 8 9)
        ⟨[("a", ⟨"a", "a.py", some 1, some 1, true, none⟩)], [], false, []⟩ "a").extensions "a"
      = some ⟨"a", "a.py", some 8, some 9, true, none⟩ :=
  claim_C2_reload_behavior (fun _ => false)
    ⟨[("a", ⟨"a", "a.py", some 1, some 1, true, none⟩)], [], false, []⟩ "a"
    ⟨"a", "a.py", some 1, some 1, true, none⟩ (by decide) rfl 1 rfl "tb" 8 9

/-! ### C3 — shutdown_all is one-shot -/

theorem shutdownAll_idem (st : MState) :
    shutdownAll (shutdownAll st) = shutdownAll st := by
  by_cases h : st.shuttingDown
  · simp [shutdownAll, h]
  · simp [shutdownAll, h, saveState]

theorem shutdownAll_iterate (st : MState) (k : Nat) (hk : 1 ≤ k) :
    shutdownAll^[k] st = shutdownAll st := by
  obtain ⟨j, rfl⟩ : ∃ j, k = j + 1 := ⟨k - 1, by omega⟩
  rw [Function.iterate_succ_apply]
  induction j with
  | zero => rfl
  | succ j ih =>
      rw [Function.iterate_succ_apply, shutdownAll_idem]
      exact ih (by omega)

theorem not_mem_map_fst_filter {β : Type} {t : List (String × β)}
    (p : String × β → Bool) {n : String} (h : n ∉ akeys t) :
    n ∉ (t.filter p).map Prod.fst := by
  intro hmem
  obtain ⟨x, hx, hfst⟩ := List.mem_map.mp hmem
  exact h (hfst ▸ List.mem_map_of_mem Prod.fst (List.mem_of_mem_filter hx))

theorem count_map_fst_filter {β : Type} {t : List (String × β)}
    (p : String × β → Bool) {n : String} {info : β}
    (hnd : (akeys t).Nodup) (hmem : (n, info) ∈ t) :
    ((t.filter p).map Prod.fst).count n = if p (n, info) then 1 else 0 := by
  induction t with
  | nil => simp at hmem
  | cons q rest ih =>
      obtain ⟨kk, w⟩ := q
      rw [akeys_cons, List.nodup_cons] at hnd
      rcases List.mem_cons.mp hmem with h1 | h1
      · have hn : kk = n := (congrArg Prod.fst h1).symm
        have hw : w = info := (congrArg Prod.snd h1).symm
        subst hn
        subst hw
        have hzero : ((rest.filter p).map Prod.fst).count kk = 0 :=
          List.count_eq_zero.mpr (not_mem_map_fst_filter p hnd.1)
        by_cases hp : p (kk, w)
        · simp [List.filter_cons, hp, hzero]
        · simp [List.filter_cons, hp, hzero]
      · have hk : ¬kk = n := by
          intro hh
          exact hnd.1 (hh ▸ mem_keys_of_mem h1)
        by_cases hp : p (kk, w)
        · simp [List.filter_cons, hp, List.count_cons, hk, ih hnd.2 h1]
        · simp [List.filter_cons, hp, ih hnd.2 h1]

/-- C3 (confirmed): starting from a manager that has not begun shutting
down and with an empty invocation log, any number `k ≥ 1` of
`shutdown_all()` calls — the normal close path and any abnormal path both
land on this one method — invokes `on_shutdown` exactly once for a
tracked record holding an instance and never for a record without one:
the one-shot `_shutting_down` flag makes every call after the first a
no-op. -/
theorem claim_C3_shutdown_once (st : MState) (hsd : st.shuttingDown = false)
    (hlog : st.shutdownLog = []) (hnd : (akeys st.extensions).Nodup)
    (n : String) (info : ExtensionInfo) (hmem : (n, info) ∈ st.extensions)
    (k : Nat) (hk : 1 ≤ k) :
    (shutdownAll^[k] st).shutdownLog.count n
      = (if info.inst.isSome then 1 else 0)
    ∧ shutdownAll (shutdownAll st) = shutdownAll st := by
  refine ⟨?_, shutdownAll_idem st⟩
  rw [shutdownAll_iterate st k hk]
  simp only [shutdownAll, hsd, if_false, Bool.false_eq_true, saveState, hlog,
    List.nil_append]
  exact count_map_fst_filter (fun p => p.2.inst.isSome) hnd hmem

/-- Witness for `claim_C3_shutdown_once`: two records, one with an
instance and one without, three consecutive `shutdown_all()` calls. -/
theorem claim_C3_shutdown_once_witness :
    (shutdownAll^[3]
        ⟨[("a", ⟨"a", "a.py", some 0, some 0, true, none⟩),
          ("b", ⟨"b", "b.py", none, none, false, some "tb"⟩)], [], false, []⟩).shutdownLog.count "a"
      = (if (some 0 : Option Nat).isSome then 1 else 0)
    ∧ shutdownAll (shutdownAll
        ⟨[("a", ⟨"a", "a.py", some 0, some 0, true, none⟩),
          ("b", ⟨"b", "b.py", none, none, false, some "tb"⟩)], [], false, []⟩)
      = shutdownAll
        ⟨[("a", ⟨"a", "a.py", some 0, some 0, true, none⟩),
          ("b", ⟨"b", "b.py", none, none, false, some "tb"⟩)], [], false, []⟩ :=
  claim_C3_shutdown_once
    ⟨[("a", ⟨"a", "a.py", some 0, some 0, true, none⟩),
      ("b", ⟨"b", "b.py", none, none, false, some "tb"⟩)], [], false, []⟩
    rfl rfl (by decide) "a" ⟨"a", "a.py", some 0, some 0, true, none⟩ (by decide) 3 (by decide)

/-! ### C4 — load failure isolation -/

theorem not_dispatched_of_inst_none {t : List (String × ExtensionInfo)}
    {n : String} {info : ExtensionInfo} (hnd : (akeys t).Nodup)
    (hlk : alookup t n = some info) (hin : info.inst = none) :
    n ∉ dispatchTargets t := by
  intro h
  obtain ⟨info', hmem, hg⟩ := of_mem_dispatchTargets h
  have heq : info' = info :=
    Option.some.inj ((mem_alookup_of_nodup hnd hmem).symm.trans hlk)
  rw [heq] at hg
  simp [dispatchGuard, hin] at hg

theorem applyToggle_inst_none (actRaises : Nat → Bool) (st : MState) (n : String)
    (info : ExtensionInfo) (op : ToggleOp)
    (hnd : (akeys st.extensions).Nodup)
    (hlk : alookup st.extensions n = some info) (hin : info.inst = none) :
    ∃ info2, alookup (applyToggle actRaises st op).extensions n = some info2
      ∧ info2.inst = none
      ∧ (akeys (applyToggle actRaises st op).extensions).Nodup := by
  cases op with
  | en m =>
      simp only [applyToggle, enable]
      cases hm : alookup st.extensions m with
      | none => exact ⟨info, hlk, hin, hnd⟩
      | some infoM =>
          by_cases he : infoM.enabled
          · simp only [he, if_true]
            exact ⟨info, hlk, hin, hnd⟩
          · simp only [he, if_false, Bool.false_eq_true, saveState]
            by_cases hmn : m = n
            · subst hmn
              have hMeq : infoM = info := Option.some.inj (hm.symm.trans hlk)
              subst hMeq
              refine ⟨activateRec actRaises { infoM with enabled := true },
                alookup_aset_self .., ?_, akeys_aset_nodup _ _ _ hnd⟩
              simp [activateRec, hin]
            · exact ⟨info, (alookup_aset_ne _ _ _ _ (fun hh => hmn hh.symm)).trans hlk,
                hin, akeys_aset_nodup _ _ _ hnd⟩
  | dis m =>
      simp only [applyToggle, disable]
      cases hm : alookup st.extensions m with
      | none => exact ⟨info, hlk, hin, hnd⟩
      | some infoM =>
          by_cases he : infoM.enabled
          · simp only [he, if_true, saveState, deactivateRec]
            by_cases hmn : m = n
            · subst hmn
              have hMeq : infoM = info := Option.some.inj (hm.symm.trans hlk)
              subst hMeq
              exact ⟨{ infoM with enabled := false }, alookup_aset_self .., hin,
                akeys_aset_nodup _ _ _ hnd⟩
            · exact ⟨info, (alookup_aset_ne _ _ _ _ (fun hh => hmn hh.symm)).trans hlk,
                hin, akeys_aset_nodup _ _ _ hnd⟩
          · simp only [he, if_false, Bool.false_eq_true]
            exact ⟨info, hlk, hin, hnd⟩

theorem applyToggles_inst_none (actRaises : Nat → Bool) (ops : List ToggleOp) :
    ∀ (st : MState) (n : String) (info : ExtensionInfo),
      (akeys st.extensions).Nodup → alookup st.extensions n = some info →
      info.inst = none →
      ∃ info2, alookup (applyToggles actRaises ops st).extensions n = some info2
        ∧ info2.inst = none
        ∧ (akeys (applyToggles actRaises ops st).extensions).Nodup := by
  induction ops with
  | nil =>
      intro st n info hnd hlk hin
      exact ⟨info, hlk, hin, hnd⟩
  | cons op rest ih =>
      intro st n info hnd hlk hin
      obtain ⟨i2, h1, h2, h3⟩ := applyToggle_inst_none actRaises st n info op hnd hlk hin
      exact ih _ n i2 h3 h1 h2

/-- C4 (confirmed): if any exception is raised while loading, executing
or instantiating a candidate file, `_load_extension` leaves a record in
the table with the traceback as error detail, `enabled` forced to false
and no instance; that record is not in the target set of any dispatch
(`dispatch_key` included), and stays out of it under every subsequent
sequence of `enable`/`disable` calls, because its `instance` stays `None`
and the dispatch guard requires one. -/
theorem claim_C4_load_failure (actRaises : Nat → Bool) (st : MState)
    (n path tb : String) (hnd : (akeys st.extensions).Nodup) :
    alookup (loadExtension actRaises (LoadOutcome.raised tb) st n path).extensions n
      = some ⟨n, path, none, none, false, some tb⟩
    ∧ n ∉ dispatchTargets (loadExtension actRaises (LoadOutcome.raised tb) st n path).extensions
    ∧ (∀ onKey, n ∉ (dispatchKeyRun onKey
        (loadExtension actRaises (LoadOutcome.raised tb) st n path).extensions).1)
    ∧ ∀ ops : List ToggleOp, n ∉ dispatchTargets
        (applyToggles actRaises ops
          (loadExtension actRaises (LoadOutcome.raised tb) st n path)).extensions := by
  have h1 : alookup (loadExtension actRaises (LoadOutcome.raised tb) st n path).extensions n
      = some ⟨n, path, none, none, false, some tb⟩ := by
    simp only [loadExtension]
    exact alookup_aset_self ..
  have hnd1 : (akeys (loadExtension actRaises (LoadOutcome.raised tb) st n path).extensions).Nodup := by
    simp only [loadExtension]
    exact akeys_aset_nodup _ _ _ hnd
  have h2 := not_dispatched_of_inst_none hnd1 h1 rfl
  refine ⟨h1, h2, ?_, ?_⟩
  · intro onKey hmem
    exact h2 ((dispatchKeyRun_leading onKey _).subset hmem)
  · intro ops
    obtain ⟨i2, hl, hi, hn⟩ := applyToggles_inst_none actRaises ops _ n _ hnd1 h1 rfl
    exact not_dispatched_of_inst_none hn hl hi

/-- Witness for `claim_C4_load_failure`: loading `bad.py` into a table
already holding one healthy record. -/
theorem claim_C4_load_failure_witness :
    alookup (loadExtension (fun _ => false) (LoadOutcome.raised "tb")
        ⟨[("a", ⟨"a", "a.py", some 0, some 0, true, none⟩)], [], false, []⟩
        "bad" "bad.py").extensions "bad"
      = some ⟨"bad", "bad.py", none, none, false, some "tb"⟩
    ∧ "bad" ∉ dispatchTargets (loadExtension (fun _ => false) (LoadOutcome.raised "tb")
        ⟨[("a", ⟨"a", "a.py", some 0, some 0, true, none⟩)], [], false, []⟩
        "bad" "bad.py").extensions
    ∧ (∀ onKey, "bad" ∉ (dispatchKeyRun onKey
        (loadExtension (fun _ => false) (LoadOutcome.raised "tb")
          ⟨[("a", ⟨"a", "a.py", some 0, some 0, true, none⟩)], [], false, []⟩
          "bad" "bad.py").extensions).1)
    ∧ ∀ ops : List ToggleOp, "bad" ∉ dispatchTargets
        (applyToggles (fun _ => false) ops
          (loadExtension (fun _ => false) (LoadOutcome.raised "tb")
            ⟨[("a", ⟨"a", "a.py", some 0, some 0, true, none⟩)], [], false, []⟩
            "bad" "bad.py")).extensions :=
  claim_C4_load_failure (fun _ => false)
    ⟨[("a", ⟨"a", "a.py", some 0, some 0, true, none⟩)], [], false, []⟩
    "bad" "bad.py" "tb" (by decide)

/-! ### C5 — discovery: skip marker, uniqueness, idempotence -/

theorem mem_akeys_aset_self {β : Type} (t : List (String × β)) (n : String) (v : β) :
    n ∈ akeys (aset t n v) := by
  by_cases h : n ∈ akeys t
  · rw [akeys_aset_mem t n v h]
    exact h
  · rw [akeys_aset_not_mem t n v h]
    simp

theorem mem_akeys_aset_elim {β : Type} {t : List (String × β)} {n m : String} {v : β}
    (h : m ∈ akeys (aset t n v)) : m ∈ akeys t ∨ m = n := by
  by_cases hm : n ∈ akeys t
  · rw [akeys_aset_mem t n v hm] at h
    exact Or.inl h
  · rw [akeys_aset_not_mem t n v hm] at h
    rcases List.mem_append.mp h with h1 | h1
    · exact Or.inl h1
    · exact Or.inr (List.mem_singleton.mp h1)

theorem mem_akeys_aset_of_mem {β : Type} {t : List (String × β)} {n m : String} (v : β)
    (h : m ∈ akeys t) : m ∈ akeys (aset t n v) := by
  by_cases hm : n ∈ akeys t
  · rw [akeys_aset_mem t n v hm]
    exact h
  · rw [akeys_aset_not_mem t n v hm]
    exact List.mem_append_left _ h

theorem loadExtension_nodup (actRaises : Nat → Bool) (o : LoadOutcome) (st : MState)
    (f path : String) (hnd : (akeys st.extensions).Nodup) :
    (akeys (loadExtension actRaises o st f path).extensions).Nodup := by
  cases o with
  | noSpec => exact hnd
  | noClass => exact hnd
  | raised tb => exact akeys_aset_nodup _ _ _ hnd
  | ok m i =>
      simp only [loadExtension]
      by_cases he : (alookup st.state f).getD true
      · simp only [he, if_true]
        exact akeys_aset_nodup _ _ _ hnd
      · simp only [he, if_false]
        exact akeys_aset_nodup _ _ _ hnd

theorem loadExtension_lookup_ne (actRaises : Nat → Bool) (o : LoadOutcome) (st : MState)
    (f path m : String) (h : ¬m = f) :
    alookup (loadExtension actRaises o st f path).extensions m = alookup st.extensions m := by
  cases o with
  | noSpec => rfl
  | noClass => rfl
  | raised tb => exact alookup_aset_ne _ _ _ _ h
  | ok mo i =>
      simp only [loadExtension]
      by_cases he : (alookup st.state f).getD true
      · simp only [he, if_true]
        exact alookup_aset_ne _ _ _ _ h
      · simp only [he, if_false]
        exact alookup_aset_ne _ _ _ _ h

theorem loadExtension_keys_super (actRaises : Nat → Bool) (o : LoadOutcome) (st : MState)
    (f path m : String) (h : m ∈ akeys st.extensions) :
    m ∈ akeys (loadExtension actRaises o st f path).extensions := by
  cases o with
  | noSpec => exact h
  | noClass => exact h
  | raised tb => exact mem_akeys_aset_of_mem _ h
  | ok mo i =>
      simp only [loadExtension]
      by_cases he : (alookup st.state f).getD true
      · simp only [he, if_true]
        exact mem_akeys_aset_of_mem _ h
      · simp only [he, if_false]
        exact mem_akeys_aset_of_mem _ h

theorem loadExtension_keys_elim (actRaises : Nat → Bool) (o : LoadOutcome) (st : MState)
    (f path m : String)
    (h : m ∈ akeys (loadExtension actRaises o st f path).extensions) :
    m ∈ akeys st.extensions ∨ m = f := by
  cases o with
  | noSpec => exact Or.inl h
  | noClass => exact Or.inl h
  | raised tb => exact mem_akeys_aset_elim h
  | ok mo i =>
      simp only [loadExtension] at h
      by_cases he : (alookup st.state f).getD true
      · simp only [he, if_true] at h
        exact mem_akeys_aset_elim h
      · simp only [he, if_false] at h
        exact mem_akeys_aset_elim h

theorem loadExtension_raised_mem (actRaises : Nat → Bool) (tb : String) (st : MState)
    (f path : String) :
    f ∈ akeys (loadExtension actRaises (LoadOutcome.raised tb) st f path).extensions :=
  mem_akeys_aset_self ..

theorem loadExtension_ok_mem (actRaises : Nat → Bool) (mo i : Nat) (st : MState)
    (f path : String) :
    f ∈ akeys (loadExtension actRaises (LoadOutcome.ok mo i) st f path).extensions := by
  simp only [loadExtension]
  by_cases he : (alookup st.state f).getD true
  · simp only [he, if_true]
    exact mem_akeys_aset_self ..
  · simp only [he, if_false]
    exact mem_akeys_aset_self ..

theorem discoverAndLoad_cons_marker (a : Nat → Bool) (o : String → LoadOutcome)
    (p : String → String) (f : String) (rest : List String) (st : MState)
    (h : startsWithMarker f = true) :
    discoverAndLoad a o p (f :: rest) st = discoverAndLoad a o p rest st := by
  simp [discoverAndLoad, h]

theorem discoverAndLoad_cons_tracked (a : Nat → Bool) (o : String → LoadOutcome)
    (p : String → String) (f : String) (rest : List String) (st : MState)
    (h : ¬startsWithMarker f = true) {info : ExtensionInfo}
    (h2 : alookup st.extensions f = some info) :
    discoverAndLoad a o p (f :: rest) st = discoverAndLoad a o p rest st := by
  simp [discoverAndLoad, h, h2]

theorem discoverAndLoad_cons_new (a : Nat → Bool) (o : String → LoadOutcome)
    (p : String → String) (f : String) (rest : List String) (st : MState)
    (h : ¬startsWithMarker f = true) (h2 : alookup st.extensions f = none) :
    discoverAndLoad a o p (f :: rest) st
      = discoverAndLoad a o p rest (loadExtension a (o f) st f (p f)) := by
  simp [discoverAndLoad, h, h2]

theorem discoverAndLoad_keys_super (a : Nat → Bool) (o : String → LoadOutcome)
    (p : String → String) (files : List String) :
    ∀ (st : MState) (m : String), m ∈ akeys st.extensions →
      m ∈ akeys (discoverAndLoad a o p files st).extensions := by
  induction files with
  | nil =>
      intro st m h
      exact h
  | cons f rest ih =>
      intro st m h
      by_cases hf : startsWithMarker f = true
      · rw [discoverAndLoad_cons_marker a o p f rest st hf]
        exact ih st m h
      · cases h2 : alookup st.extensions f with
        | some info =>
            rw [discoverAndLoad_cons_tracked a o p f rest st hf h2]
            exact ih st m h
        | none =>
            rw [discoverAndLoad_cons_new a o p f rest st hf h2]
            exact ih _ m (loadExtension_keys_super a (o f) st f (p f) m h)

theorem discoverAndLoad_nodup (a : Nat → Bool) (o : String → LoadOutcome)
    (p : String → String) (files : List String) :
    ∀ (st : MState), (akeys st.extensions).Nodup →
      (akeys (discoverAndLoad a o p files st).extensions).Nodup := by
  induction files with
  | nil =>
      intro st h
      exact h
  | cons f rest ih =>
      intro st h
      by_cases hf : startsWithMarker f = true
      · rw [discoverAndLoad_cons_marker a o p f rest st hf]
        exact ih st h
      · cases h2 : alookup st.extensions f with
        | some info =>
            rw [discoverAndLoad_cons_tracked a o p f rest st hf h2]
            exact ih st h
        | none =>
            rw [discoverAndLoad_cons_new a o p f rest st hf h2]
            exact ih _ (loadExtension_nodup a (o f) st f (p f) h)

theorem discoverAndLoad_frame (a : Nat → Bool) (o : String → LoadOutcome)
    (p : String → String) (files : List String) :
    ∀ (st : MState) (n : String) (info : ExtensionInfo),
      alookup st.extensions n = some info →
      alookup (discoverAndLoad a o p files st).extensions n = some info := by
  induction files with
  | nil =>
      intro st n info h
      exact h
  | cons f rest ih =>
      intro st n info h
      by_cases hf : startsWithMarker f = true
      · rw [discoverAndLoad_cons_marker a o p f rest st hf]
        exact ih st n info h
      · cases h2 : alookup st.extensions f with
        | some infoF =>
            rw [discoverAndLoad_cons_tracked a o p f rest st hf h2]
            exact ih st n info h
        | none =>
            rw [discoverAndLoad_cons_new a o p f rest st hf h2]
            have hne : ¬n = f := by
              intro hh
              rw [hh, h2] at h
              exact Option.noConfusion h
            exact ih _ n info
              ((loadExtension_lookup_ne a (o f) st f (p f) n hne).trans h)

theorem discoverAndLoad_keys_elim (a : Nat → Bool) (o : String → LoadOutcome)
    (p : String → String) (files : List String) :
    ∀ (st : MState) (m : String),
      m ∈ akeys (discoverAndLoad a o p files st).extensions →
      m ∈ akeys st.extensions ∨ (m ∈ files ∧ ¬startsWithMarker m = true) := by
  induction files with
  | nil =>
      intro st m h
      exact Or.inl h
  | cons f rest ih =>
      intro st m h
      by_cases hf : startsWithMarker f = true
      · rw [discoverAndLoad_cons_marker a o p f rest st hf] at h
        rcases ih st m h with h1 | h1
        · exact Or.inl h1
        · exact Or.inr ⟨List.mem_cons_of_mem f h1.1, h1.2⟩
      · cases h2 : alookup st.extensions f with
        | some infoF =>
            rw [discoverAndLoad_cons_tracked a o p f rest st hf h2] at h
            rcases ih st m h with h1 | h1
            · exact Or.inl h1
            · exact Or.inr ⟨List.mem_cons_of_mem f h1.1, h1.2⟩
        | none =>
            rw [discoverAndLoad_cons_new a o p f rest st hf h2] at h
            rcases ih _ m h with h1 | h1
            · rcases loadExtension_keys_elim a (o f) st f (p f) m h1 with h3 | h3
              · exact Or.inl h3
              · exact Or.inr ⟨h3 ▸ List.mem_cons_self f rest, h3 ▸ hf⟩
            · exact Or.inr ⟨List.mem_cons_of_mem f h1.1, h1.2⟩

theorem discoverAndLoad_processed (a : Nat → Bool) (o : String → LoadOutcome)
    (p : String → String) (files : List String) :
    ∀ (st : MState) (f : String), f ∈ files → ¬startsWithMarker f = true →
      (o f = LoadOutcome.noSpec ∨ o f = LoadOutcome.noClass) ∨
        f ∈ akeys (discoverAndLoad a o p files st).extensions := by
  induction files with
  | nil =>
      intro st f h
      exact absurd h (List.not_mem_nil f)
  | cons g rest ih =>
      intro st f hmem hf
      rcases List.mem_cons.mp hmem with h1 | h1
      · subst h1
        cases h2 : alookup st.extensions f with
        | some infoF =>
            rw [discoverAndLoad_cons_tracked a o p f rest st hf h2]
            exact Or.inr (discoverAndLoad_keys_super a o p rest st f
              (mem_keys_of_mem (alookup_eq_some_mem h2)))
        | none =>
            rw [discoverAndLoad_cons_new a o p f rest st hf h2]
            cases ho : o f with
            | noSpec => exact Or.inl (Or.inl rfl)
            | noClass => exact Or.inl (Or.inr rfl)
            | raised tb =>
                exact Or.inr (discoverAndLoad_keys_super a o p rest _ f
                  (loadExtension_raised_mem a tb st f (p f)))
            | ok mo i =>
                exact Or.inr (discoverAndLoad_keys_super a o p rest _ f
                  (loadExtension_ok_mem a mo i st f (p f)))
      · by_cases hg : startsWithMarker g = true
        · rw [discoverAndLoad_cons_marker a o p g rest st hg]
          exact ih st f h1 hf
        · cases h2 : alookup st.extensions g with
          | some infoG =>
              rw [discoverAndLoad_cons_tracked a o p g rest st hg h2]
              exact ih st f h1 hf
          | none =>
              rw [discoverAndLoad_cons_new a o p g rest st hg h2]
              exact ih _ f h1 hf

theorem discoverAndLoad_noop (a : Nat → Bool) (o : String → LoadOutcome)
    (p : String → String) (files : List String) :
    ∀ (st : MState),
      (∀ f ∈ files, startsWithMarker f = true ∨ o f = LoadOutcome.noSpec ∨
        o f = LoadOutcome.noClass ∨ f ∈ akeys st.extensions) →
      discoverAndLoad a o p files st = st := by
  induction files with
  | nil =>
      intro st _
      rfl
  | cons f rest ih =>
      intro st hall
      have hrest : ∀ g ∈ rest, startsWithMarker g = true ∨ o g = LoadOutcome.noSpec ∨
          o g = LoadOutcome.noClass ∨ g ∈ akeys st.extensions :=
        fun g hg => hall g (List.mem_cons_of_mem f hg)
      by_cases hf : startsWithMarker f = true
      · rw [discoverAndLoad_cons_marker a o p f rest st hf]
        exact ih st hrest
      · cases h2 : alookup st.extensions f with
        | some infoF =>
            rw [discoverAndLoad_cons_tracked a o p f rest st hf h2]
            exact ih st hrest
        | none =>
            rw [discoverAndLoad_cons_new a o p f rest st hf h2]
            rcases hall f (List.mem_cons_self f rest) with h3 | h3 | h3 | h3
            · exact absurd h3 hf
            · rw [h3]
              exact ih st hrest
            · rw [h3]
              exact ih st hrest
            · exact absurd ((alookup_eq_none_iff st.extensions f).mp h2) (by simp [h3])

/-- C5 (confirmed): for every candidate file list, `discover_and_load`
(1) keeps the record-table keys duplicate-free (at most one record per
identifier), (2) adds records only for scanned identifiers that do not
start with the reserved `"_"` marker, (3) is idempotent — a second run on
the same files changes nothing, and (4) never touches a record that is
already tracked (so a second call only picks up newly added files). -/
theorem claim_C5_discovery (a : Nat → Bool) (o : String → LoadOutcome)
    (p : String → String) (files : List String) (st : MState)
    (hnd : (akeys st.extensions).Nodup) :
    (akeys (discoverAndLoad a o p files st).extensions).Nodup
    ∧ (∀ m, m ∈ akeys (discoverAndLoad a o p files st).extensions →
        m ∈ akeys st.extensions ∨ (m ∈ files ∧ ¬startsWithMarker m = true))
    ∧ discoverAndLoad a o p files (discoverAndLoad a o p files st)
        = discoverAndLoad a o p files st
    ∧ ∀ n info, alookup st.extensions n = some info →
        alookup (discoverAndLoad a o p files st).extensions n = some info := by
  refine ⟨discoverAndLoad_nodup a o p files st hnd,
    fun m => discoverAndLoad_keys_elim a o p files st m, ?_,
    fun n info h => discoverAndLoad_frame a o p files st n info h⟩
  apply discoverAndLoad_noop
  intro f hmem
  by_cases hf : startsWithMarker f = true
  · exact Or.inl hf
  · rcases discoverAndLoad_processed a o p files st f hmem hf with h1 | h1
    · rcases h1 with h1 | h1
      · exact Or.inr (Or.inl h1)
      · exact Or.inr (Or.inr (Or.inl h1))
    · exact Or.inr (Or.inr (Or.inr h1))

/-- Witness for `claim_C5_discovery`: a directory with a reserved file,
a loadable file and a non-extension file, over a table already tracking
one record. -/
theorem claim_C5_discovery_witness :
    (akeys (discoverAndLoad (fun _ => false)
        (fun f => if f = "good" then LoadOutcome.ok 1 2 else LoadOutcome.noClass)
        (fun f => f ++ ".py") ["_skip", "good", "plain"]
        ⟨[("old", ⟨"old", "old.py", some 9, some 9, true, none⟩)], [], false, []⟩).extensions).Nodup
    ∧ discoverAndLoad (fun _ => false)
        (fun f => if f = "good" then LoadOutcome.ok 1 2 else LoadOutcome.noClass)
        (fun f => f ++ ".py") ["_skip", "good", "plain"]
        (discoverAndLoad (fun _ => false)
          (fun f => if f = "good" then LoadOutcome.ok 1 2 else LoadOutcome.noClass)
          (fun f => f ++ ".py") ["_skip", "good", "plain"]
          ⟨[("old", ⟨"old", "old.py", some 9, some 9, true, none⟩)], [], false, []⟩)
      = discoverAndLoad (fun _ => false)
          (fun f => if f = "good" then LoadOutcome.ok 1 2 else LoadOutcome.noClass)
          (fun f => f ++ ".py") ["_skip", "good", "plain"]
          ⟨[("old", ⟨"old", "old.py", some 9, some 9, true, none⟩)], [], false, []⟩
    ∧ alookup (discoverAndLoad (fun _ => false)
        (fun f => if f = "good" then LoadOutcome.ok 1 2 else LoadOutcome.noClass)
        (fun f => f ++ ".py") ["_skip", "good", "plain"]
        ⟨[("old", ⟨"old", "old.py", some 9, some 9, true, none⟩)], [], false, []⟩).extensions "old"
      = some ⟨"old", "old.py", some 9, some 9, true, none⟩
    ∧ ("good" ∈ akeys (⟨[("old", ⟨"old", "old.py", some 9, some 9, true, none⟩)], [], false, []⟩ : MState).extensions
        ∨ ("good" ∈ ["_skip", "good", "plain"] ∧ ¬startsWithMarker "good" = true)) := by
  have h := claim_C5_discovery (fun _ => false)
    (fun f => if f = "good" then LoadOutcome.ok 1 2 else LoadOutcome.noClass)
    (fun f => f ++ ".py") ["_skip", "good", "plain"]
    ⟨[("old", ⟨"old", "old.py", some 9, some 9, true, none⟩)], [], false, []⟩ (by decide)
  exact ⟨h.1, h.2.2.1, h.2.2.2 "old" ⟨"old", "old.py", some 9, some 9, true, none⟩ (by decide),
    h.2.1 "good" (by decide)⟩

/-! ### C6 — disable/enable round trip -/

theorem activateRec_inst (a : Nat → Bool) (info : ExtensionInfo) :
    (activateRec a info).inst = info.inst := by
  cases h : info.inst with
  | none => simp [activateRec, h]
  | some i =>
      by_cases hr : a i
      · simp [activateRec, h, hr]
      · simp [activateRec, h, hr]

theorem activateRec_module (a : Nat → Bool) (info : ExtensionInfo) :
    (activateRec a info).module = info.module := by
  cases h : info.inst with
  | none => simp [activateRec, h]
  | some i =>
      by_cases hr : a i
      · simp [activateRec, h, hr]
      · simp [activateRec, h, hr]

theorem activateRec_enabled (a : Nat → Bool) (info : ExtensionInfo) :
    (activateRec a info).enabled = info.enabled := by
  cases h : info.inst with
  | none => simp [activateRec, h]
  | some i =>
      by_cases hr : a i
      · simp [activateRec, h, hr]
      · simp [activateRec, h, hr]

theorem disable_on_enabled {st : MState} {n : String} {info : ExtensionInfo}
    (hlk : alookup st.extensions n = some info) (he : info.enabled = true) :
    disable st n
      = saveState { st with extensions := aset st.extensions n { info with enabled := false } } := by
  unfold disable
  rw [hlk]
  simp [he, deactivateRec]

theorem disable_on_disabled {st : MState} {n : String} {info : ExtensionInfo}
    (hlk : alookup st.extensions n = some info) (he : info.enabled = false) :
    disable st n = st := by
  unfold disable
  rw [hlk]
  simp [he]

theorem enable_on_enabled (a : Nat → Bool) {st : MState} {n : String}
    {info : ExtensionInfo} (hlk : alookup st.extensions n = some info)
    (he : info.enabled = true) : enable a st n = st := by
  unfold enable
  rw [hlk]
  simp [he]

theorem enable_on_disabled (a : Nat → Bool) {st : MState} {n : String}
    {info : ExtensionInfo} (hlk : alookup st.extensions n = some info)
    (he : info.enabled = false) :
    enable a st n
      = saveState { st with
          extensions := aset st.extensions n (activateRec a { info with enabled := true }) } := by
  unfold enable
  rw [hlk]
  simp [he]

/-- C6 (confirmed): for a tracked record with an instance,
`disable(id)` then `enable(id)` leaves the record with the very same
`instance` and `module` objects (no re-load), enabled, and back in the
dispatch target set; and `enable` on an already-enabled record and
`disable` on an already-disabled record are exact no-ops on the whole
manager state. -/
theorem claim_C6_toggle_roundtrip (actRaises : Nat → Bool) (st : MState)
    (n : String) (info : ExtensionInfo)
    (hlk : alookup st.extensions n = some info) (hinst : info.inst.isSome = true) :
    (∃ info2,
      alookup (enable actRaises (disable st n) n).extensions n = some info2
      ∧ info2.inst = info.inst ∧ info2.module = info.module
      ∧ info2.enabled = true
      ∧ n ∈ dispatchTargets (enable actRaises (disable st n) n).extensions)
    ∧ (info.enabled = true → enable actRaises st n = st)
    ∧ (info.enabled = false → disable st n = st) := by
  refine ⟨?_, fun he => enable_on_enabled actRaises hlk he,
    fun he => disable_on_disabled hlk he⟩
  by_cases he : info.enabled
  · have hd := disable_on_enabled hlk he
    have hlk1 : alookup (disable st n).extensions n = some { info with enabled := false } := by
      rw [hd]
      exact alookup_aset_self ..
    have hen := enable_on_disabled actRaises hlk1 rfl
    refine ⟨activateRec actRaises { info with enabled := true }, ?_, ?_, ?_, ?_, ?_⟩
    · rw [hen]
      exact alookup_aset_self ..
    · exact activateRec_inst ..
    · exact activateRec_module ..
    · exact activateRec_enabled ..
    · refine mem_dispatchTargets_of (alookup_eq_some_mem (by rw [hen]; exact alookup_aset_self ..)) ?_
      simp [dispatchGuard, activateRec_enabled, activateRec_inst, hinst]
  · have hef : info.enabled = false := Bool.not_eq_true _ ▸ he
    have hd := disable_on_disabled hlk hef
    rw [hd]
    have hen := enable_on_disabled actRaises hlk hef
    refine ⟨activateRec actRaises { info with enabled := true }, ?_, ?_, ?_, ?_, ?_⟩
    · rw [hen]
      exact alookup_aset_self ..
    · exact activateRec_inst ..
    · exact activateRec_module ..
    · exact activateRec_enabled ..
    · refine mem_dispatchTargets_of (alookup_eq_some_mem (by rw [hen]; exact alookup_aset_self ..)) ?_
      simp [dispatchGuard, activateRec_enabled, activateRec_inst, hinst]

/-- Witness for `claim_C6_toggle_roundtrip` on a concrete enabled record. -/
theorem claim_C6_toggle_roundtrip_witness :
    (∃ info2,
      alookup (enable (fun _ => false)
          (disable ⟨[("a", ⟨"a", "a.py", some 3, some 4, true, none⟩)], [], false, []⟩ "a")
          "a").extensions "a" = some info2
      ∧ info2.inst = (⟨"a", "a.py", some 3, some 4, true, none⟩ : ExtensionInfo).inst
      ∧ info2.module = (⟨"a", "a.py", some 3, some 4, true, none⟩ : ExtensionInfo).module
      ∧ info2.enabled = true
      ∧ "a" ∈ dispatchTargets (enable (fun _ => false)
          (disable ⟨[("a", ⟨"a", "a.py", some 3, some 4, true, none⟩)], [], false, []⟩ "a")
          "a").extensions)
    ∧ ((⟨"a", "a.py", some 3, some 4, true, none⟩ : ExtensionInfo).enabled = true →
        enable (fun _ => false)
          ⟨[("a", ⟨"a", "a.py", some 3, some 4, true, none⟩)], [], false, []⟩ "a"
        = ⟨[("a", ⟨"a", "a.py", some 3, some 4, true, none⟩)], [], false, []⟩)
    ∧ ((⟨"a", "a.py", some 3, some 4, true, none⟩ : ExtensionInfo).enabled = false →
        disable ⟨[("a", ⟨"a", "a.py", some 3, some 4, true, none⟩)], [], false, []⟩ "a"
        = ⟨[("a", ⟨"a", "a.py", some 3, some 4, true, none⟩)], [], false, []⟩) :=
  claim_C6_toggle_roundtrip (fun _ => false)
    ⟨[("a", ⟨"a", "a.py", some 3, some 4, true, none⟩)], [], false, []⟩ "a"
    ⟨"a", "a.py", some 3, some 4, true, none⟩ (by decide) (by decide)

/-! ### C7 — settings round trip -/

theorem slookup_sset_self {V : Type} (m : List (String × V)) (k : String) (v : V) :
    slookup (sset m k v) k = some v := by
  induction m with
  | nil => simp [sset, slookup]
  | cons p rest ih =>
      obtain ⟨kk, w⟩ := p
      by_cases h : kk = k
      · simp [sset, slookup, h]
      · simp [sset, slookup, h, ih]

theorem sset_ne_nil {V : Type} (m : List (String × V)) (k : String) (v : V) :
    (sset m k v).isEmpty = false := by
  cases m with
  | nil => simp [sset]
  | cons p rest =>
      obtain ⟨kk, w⟩ := p
      by_cases h : kk = k
      · simp [sset, h]
      · simp [sset, h]

/-- C7 (confirmed): for every declared-defaults map, key and
JSON-serialisable value, (1) `set_setting(k, v)` followed by
`get_setting(k)` on a fresh store (cache discarded, file reloaded)
returns `v`; and when no persisted value exists for `k` — the file maps
other keys (2), does not exist (3), or is corrupt (4) — a fresh
`get_setting(k)` returns the declared default for `k`, which is `None`
when no default is declared (`slookup defaults k` is `none` exactly
then). -/
theorem claim_C7_settings_roundtrip (V : Type) (defaults : List (String × V))
    (k : String) (v : V) :
    (∀ st : SettingsStore V,
      (getSetting defaults k (freshStore (setSetting defaults k v st))).1 = some v)
    ∧ (∀ (st : SettingsStore V) m, st.file = some (some m) → slookup m k = none →
        (getSetting defaults k (freshStore st)).1 = slookup defaults k)
    ∧ (∀ st : SettingsStore V, st.file = none →
        (getSetting defaults k (freshStore st)).1 = slookup defaults k)
    ∧ (∀ st : SettingsStore V, st.file = some none →
        (getSetting defaults k (freshStore st)).1 = slookup defaults k) := by
  refine ⟨?_, ?_, ?_, ?_⟩
  · intro st
    simp only [setSetting, freshStore, getSetting, loadSettings, List.isEmpty_nil,
      if_true, slookup_sset_self]
    rfl
  · intro st m hf hk
    simp only [freshStore, getSetting, loadSettings, hf, List.isEmpty_nil, if_true, hk]
    cases slookup defaults k <;> rfl
  · intro st hf
    simp only [freshStore, getSetting, loadSettings, hf, List.isEmpty_nil, if_true]
    cases slookup defaults k <;> rfl
  · intro st hf
    simp only [freshStore, getSetting, loadSettings, hf, List.isEmpty_nil, if_true]
    cases slookup defaults k <;> rfl

/-- Witness for `claim_C7_settings_roundtrip` with natural-number values,
declared default `("d", 7)`, over each file state. -/
theorem claim_C7_settings_roundtrip_witness :
    (getSetting [("d", 7)] "k"
        (freshStore (setSetting [("d", 7)] "k" 5
          (⟨[("x", 2)], none⟩ : SettingsStore Nat)))).1 = some 5
    ∧ (getSetting [("d", 7)] "k"
        (freshStore (⟨[], some (some [("x", 2)])⟩ : SettingsStore Nat))).1
      = slookup [("d", 7)] "k"
    ∧ (getSetting [("d", 7)] "k"
        (freshStore (⟨[], none⟩ : SettingsStore Nat))).1 = slookup [("d", 7)] "k"
    ∧ (getSetting [("d", 7)] "k"
        (freshStore (⟨[], some none⟩ : SettingsStore Nat))).1 = slookup [("d", 7)] "k" := by
  have h := claim_C7_settings_roundtrip Nat [("d", 7)] "k" 5
  exact ⟨h.1 ⟨[("x", 2)], none⟩,
    h.2.1 ⟨[], some (some [("x", 2)])⟩ [("x", 2)] rfl (by decide),
    h.2.2.1 ⟨[], none⟩ rfl, h.2.2.2 ⟨[], some none⟩ rfl⟩

/-! ### C8 — metadata parser -/

theorem firstSome_eq {α β : Type} (f : α → Option β) (l : List α) :
    ∀ (i : Nat) (hi : i < l.length) (v : β),
      f (l.get ⟨i, hi⟩) = some v →
      (∀ j, j < i → ∀ (hj2 : j < l.length), f (l.get ⟨j, hj2⟩) = none) →
      firstSome f l = some v := by
  induction l with
  | nil =>
      intro i hi
      simp at hi
  | cons a rest ih =>
      intro i hi v hv hnone
      cases i with
      | zero =>
          simp only [List.get] at hv
          simp [firstSome, hv]
      | succ i =>
          have h0 : f a = none := hnone 0 (Nat.succ_pos i) (by simp)
          simp only [List.get] at hv
          simp only [firstSome, h0]
          exact ih i (Nat.lt_of_succ_lt_succ hi) v hv
            (fun j hj hj2 => hnone (j + 1) (Nat.succ_lt_succ hj)
              (by simpa using Nat.succ_lt_succ hj2))

/-- C8 (confirmed): `_quick_parse_meta` is total by construction (it is a
Lean function, and the unreadable-file case is the explicit `none`
branch) and returns a record with all six fields.  (1) An unreadable
file yields the full default record, whose `name` is the title-cased
filename; (2)-(13) for each of the six fields, the field holds its fixed
default when the field's pattern has no match in the text and the first
match's capture when it has one; (14) the search result is the match at
the leftmost matching `^` anchor — the first textual match wins. -/
theorem claim_C8_meta_parse (stem : String) :
    quickParseMeta stem none = metaDefaults stem
    ∧ (∀ cs, reSearchMeta "name".data cs = none →
        (quickParseMeta stem (some cs)).name = pyTitle stem)
    ∧ (∀ cs v, reSearchMeta "name".data cs = some v →
        (quickParseMeta stem (some cs)).name = String.mk v)
    ∧ (∀ cs, reSearchMeta "version".data cs = none →
        (quickParseMeta stem (some cs)).version = "?")
    ∧ (∀ cs v, reSearchMeta "version".data cs = some v →
        (quickParseMeta stem (some cs)).version = String.mk v)
    ∧ (∀ cs, reSearchMeta "description".data cs = none →
        (quickParseMeta stem (some cs)).description = "")
    ∧ (∀ cs v, reSearchMeta "description".data cs = some v →
        (quickParseMeta stem (some cs)).description = String.mk v)
    ∧ (∀ cs, reSearchMeta "author".data cs = none →
        (quickParseMeta stem (some cs)).author = "Unknown")
    ∧ (∀ cs v, reSearchMeta "author".data cs = some v →
        (quickParseMeta stem (some cs)).author = String.mk v)
    ∧ (∀ cs, reSearchMeta "icon".data cs = none →
        (quickParseMeta stem (some cs)).icon = "🧩")
    ∧ (∀ cs v, reSearchMeta "icon".data cs = some v →
        (quickParseMeta stem (some cs)).icon = String.mk v)
    ∧ (∀ cs, reSearchMeta "category".data cs = none →
        (quickParseMeta stem (some cs)).category = "Other")
    ∧ (∀ cs v, reSearchMeta "category".data cs = some v →
        (quickParseMeta stem (some cs)).category = String.mk v)
    ∧ (∀ (key cs : List Char) (i : Nat)
        (hi : i < (cs :: afterNewlines cs).length) (v : List Char),
        matchAt key ((cs :: afterNewlines cs).get ⟨i, hi⟩) = some v →
        (∀ j, j < i → ∀ (hj2 : j < (cs :: afterNewlines cs).length),
          matchAt key ((cs :: afterNewlines cs).get ⟨j, hj2⟩) = none) →
        reSearchMeta key cs = some v) := by
  refine ⟨rfl, ?_, ?_, ?_, ?_, ?_, ?_, ?_, ?_, ?_, ?_, ?_, ?_,
    fun key cs i hi v hv hnone => firstSome_eq (matchAt key) _ i hi v hv hnone⟩
  · intro cs h
    simp [quickParseMeta, metaDefaults, h]
  · intro cs v h
    simp [quickParseMeta, metaDefaults, h]
  · intro cs h
    simp [quickParseMeta, metaDefaults, h]
  · intro cs v h
    simp [quickParseMeta, metaDefaults, h]
  · intro cs h
    simp [quickParseMeta, metaDefaults, h]
  · intro cs v h
    simp [quickParseMeta, metaDefaults, h]
  · intro cs h
    simp [quickParseMeta, metaDefaults, h]
  · intro cs v h
    simp [quickParseMeta, metaDefaults, h]
  · intro cs h
    simp [quickParseMeta, metaDefaults, h]
  · intro cs v h
    simp [quickParseMeta, metaDefaults, h]
  · intro cs h
    simp [quickParseMeta, metaDefaults, h]
  · intro cs v h
    simp [quickParseMeta, metaDefaults, h]

/-- Witness for `claim_C8_meta_parse`: a realistic class-body header for
`word_count.py` (name and version declared, description absent), plus a
leftmost-match instance at the second line of a two-line file. -/
theorem claim_C8_meta_parse_witness :
    quickParseMeta "word_count" none = metaDefaults "word_count"
    ∧ (quickParseMeta "word_count"
        (some ("    name = \"Word Count\"\n    version = \"2.0\"").data)).name
      = "Word Count"
    ∧ (quickParseMeta "word_count"
        (some ("    name = \"Word Count\"\n    version = \"2.0\"").data)).description
      = ""
    ∧ reSearchMeta "name".data ("junk\n  name = \"A\"").data = some "A".data := by
  have h := claim_C8_meta_parse "word_count"
  refine ⟨h.1,
    h.2.2.1 ("    name = \"Word Count\"\n    version = \"2.0\"").data
      "Word Count".data (by decide),
    h.2.2.2.2.2.1 ("    name = \"Word Count\"\n    version = \"2.0\"").data (by decide),
    h.2.2.2.2.2.2.2.2.2.2.2.2.2 "name".data ("junk\n  name = \"A\"").data 1
      (by decide) "A".data (by decide) ?_⟩
  intro j hj hj2
  have hj0 : j = 0 := Nat.lt_one_iff.mp hj
  subst hj0
  show matchAt "name".data ("junk\n  name = \"A\"").data = none
  decide

/-! ### C9 — marketplace listing -/

/-- C9 (confirmed): every entry returned by `list_marketplace` comes from
a catalog file whose stem is not reserved and not an installed-table
key (1); conversely every catalog file with an unreserved, not-installed
stem contributes its parsed entry (2); and the returned module names
form a sublist of the catalog stems, so a duplicate-free catalog yields
exactly one entry per remaining candidate (3). -/
theorem claim_C9_marketplace (installed : List (String × ExtensionInfo))
    (catalog : List (String × String × Option (List Char))) :
    (∀ e ∈ listMarketplace installed catalog,
      alookup installed e.module_name = none
      ∧ startsWithMarker e.module_name = false
      ∧ ∃ path src, (e.module_name, path, src) ∈ catalog
          ∧ e = ⟨quickParseMeta e.module_name src, e.module_name, path⟩)
    ∧ (∀ stem path src, (stem, path, src) ∈ catalog →
        startsWithMarker stem = false → alookup installed stem = none →
        (⟨quickParseMeta stem src, stem, path⟩ : MarketEntry)
          ∈ listMarketplace installed catalog)
    ∧ List.Sublist ((listMarketplace installed catalog).map MarketEntry.module_name)
        (catalog.map Prod.fst) := by
  induction catalog with
  | nil =>
      refine ⟨?_, ?_, ?_⟩
      · intro e he
        simp [listMarketplace] at he
      · intro stem path src h
        simp at h
      · simp [listMarketplace]
  | cons f rest ih =>
      obtain ⟨s, pa, sr⟩ := f
      by_cases hc : startsWithMarker s = true ∨ (alookup installed s).isSome = true
      · refine ⟨?_, ?_, ?_⟩
        · intro e he
          rw [listMarketplace, if_pos hc] at he
          obtain ⟨h1, h2, path, src, h3, h4⟩ := ih.1 e he
          exact ⟨h1, h2, path, src, List.mem_cons_of_mem _ h3, h4⟩
        · intro stem path src hmem hm hn
          rcases List.mem_cons.mp hmem with h1 | h1
          · exfalso
            simp only [Prod.mk.injEq] at h1
            obtain ⟨rfl, rfl, rfl⟩ := h1
            rcases hc with hc | hc
            · rw [hm] at hc
              exact Bool.false_ne_true hc
            · rw [hn] at hc
              exact Bool.false_ne_true hc
          · rw [listMarketplace, if_pos hc]
            exact ih.2.1 stem path src h1 hm hn
        · rw [listMarketplace, if_pos hc]
          simp only [List.map_cons]
          exact ih.2.2.cons _
      · refine ⟨?_, ?_, ?_⟩
        · intro e he
          rw [listMarketplace, if_neg hc] at he
          rcases List.mem_cons.mp he with h1 | h1
          · subst h1
            push_neg at hc
            refine ⟨?_, Bool.not_eq_true _ ▸ hc.1, pa, sr, List.mem_cons_self .., rfl⟩
            cases hlk : alookup installed s with
            | none => rfl
            | some x =>
                exact absurd (by rw [hlk]; rfl) hc.2
          · obtain ⟨h1', h2, path, src, h3, h4⟩ := ih.1 e h1
            exact ⟨h1', h2, path, src, List.mem_cons_of_mem _ h3, h4⟩
        · intro stem path src hmem hm hn
          rw [listMarketplace, if_neg hc]
          rcases List.mem_cons.mp hmem with h1 | h1
          · simp only [Prod.mk.injEq] at h1
            obtain ⟨rfl, rfl, rfl⟩ := h1
            exact List.mem_cons_self ..
          · exact List.mem_cons_of_mem _ (ih.2.1 stem path src h1 hm hn)
        · rw [listMarketplace, if_neg hc]
          simp only [List.map_cons]
          exact ih.2.2.cons₂ _

/-- Witness for `claim_C9_marketplace`: catalog with a reserved file, an
already-installed stem and one fresh candidate, over a table tracking
`minimap`. -/
theorem claim_C9_marketplace_witness :
    alookup [("minimap", (⟨"minimap", "minimap.py", some 0, some 0, true, none⟩ : ExtensionInfo))]
        "auto_bracket" = none
    ∧ startsWithMarker "auto_bracket" = false
    ∧ (⟨quickParseMeta "auto_bracket" (some ("    name = \"AB\"").data),
        "auto_bracket", "a.py"⟩ : MarketEntry)
      ∈ listMarketplace
          [("minimap", ⟨"minimap", "minimap.py", some 0, some 0, true, none⟩)]
          [("_hidden", "h.py", none), ("minimap", "m.py", some []),
           ("auto_bracket", "a.py", some ("    name = \"AB\"").data)]
    ∧ List.Sublist
        ((listMarketplace
          [("minimap", ⟨"minimap", "minimap.py", some 0, some 0, true, none⟩)]
          [("_hidden", "h.py", none), ("minimap", "m.py", some []),
           ("auto_bracket", "a.py", some ("    name = \"AB\"").data)]).map
            MarketEntry.module_name)
        ([("_hidden", "h.py", (none : Option (List Char))), ("minimap", "m.py", some []),
          ("auto_bracket", "a.py", some ("    name = \"AB\"").data)].map Prod.fst) := by
  have h := claim_C9_marketplace
    [("minimap", ⟨"minimap", "minimap.py", some 0, some 0, true, none⟩)]
    [("_hidden", "h.py", none), ("minimap", "m.py", some []),
     ("auto_bracket", "a.py", some ("    name = \"AB\"").data)]
  refine ⟨?_, ?_,
    h.2.1 "auto_bracket" "a.py" (some ("    name = \"AB\"").data)
      (by decide) (by decide) (by decide), h.2.2⟩
  · exact (h.1 ⟨quickParseMeta "auto_bracket" (some ("    name = \"AB\"").data),
      "auto_bracket", "a.py"⟩ (by decide)).1
  · exact (h.1 ⟨quickParseMeta "auto_bracket" (some ("    name = \"AB\"").data),
      "auto_bracket", "a.py"⟩ (by decide)).2.1

/-! ### C10 — class-level keybinding registry -/

theorem foldl_adel_self {β : Type} : ∀ d : List (String × β),
    (akeys d).foldl (fun m k => adel m k) d = [] := by
  intro d
  induction d with
  | nil => rfl
  | cons p rest ih =>
      obtain ⟨k, v⟩ := p
      have hstep : adel ((k, v) :: rest) k = rest := by
        simp [adel]
      simp only [akeys_cons, List.foldl_cons, hstep]
      exact ih

theorem kb_flat_read (w : KbWorld) (i : ExtInst) (h1 : w.cls1 = none)
    (h2 : w.cls2 = none) (h3 : w.obj1 = none) (h4 : w.obj2 = none) :
    readKb w i = w.base := by
  cases i <;> simp [readKb, h1, h2, h3, h4, Option.orElse]

theorem kb_flat_write (w : KbWorld) (i : ExtInst) (d : List (String × String))
    (h1 : w.cls1 = none) (h2 : w.cls2 = none) (h3 : w.obj1 = none)
    (h4 : w.obj2 = none) : writeKb w i d = { w with base := d } := by
  cases i <;> simp [writeKb, h1, h2, h3, h4]

theorem kb_flat_register (w : KbWorld) (i : ExtInst) (k bid : String)
    (h1 : w.cls1 = none) (h2 : w.cls2 = none) (h3 : w.obj1 = none)
    (h4 : w.obj2 = none) :
    registerKeybinding w i k bid = { w with base := aset w.base k bid } := by
  unfold registerKeybinding
  rw [kb_flat_read w i h1 h2 h3 h4, kb_flat_write w i _ h1 h2 h3 h4]

theorem kb_unreg_fold (i : ExtInst) (ks : List String) :
    ∀ (w : KbWorld), w.cls1 = none → w.cls2 = none → w.obj1 = none →
      w.obj2 = none →
      ks.foldl (fun w k => unregisterKeybinding w i k) w
        = { w with base := ks.foldl (fun m k => adel m k) w.base } := by
  induction ks with
  | nil =>
      intro w _ _ _ _
      rfl
  | cons k ks ih =>
      intro w h1 h2 h3 h4
      have hstep : unregisterKeybinding w i k = { w with base := adel w.base k } := by
        unfold unregisterKeybinding
        rw [kb_flat_read w i h1 h2 h3 h4, kb_flat_write w i _ h1 h2 h3 h4]
      simp only [List.foldl_cons, hstep]
      exact ih _ h1 h2 h3 h4

/-- C10 (confirmed): `_keybindings` is one class-level dict on
`BaseExtension`; when neither subclass nor either instance assigns its
own `_keybindings`, (1) a binding registered through instance 1 is read
back unchanged through instance 2, (2)-(3) after both instances
register, either instance sees both bindings, and (4)
`unregister_all_keybindings` called on instance 1 alone empties the dict
seen by instance 2 — removing the bindings registered by both. -/
theorem claim_C10_shared_keybindings (w : KbWorld) (k1 bid1 k2 bid2 : String)
    (h1 : w.cls1 = none) (h2 : w.cls2 = none) (h3 : w.obj1 = none)
    (h4 : w.obj2 = none) :
    readKb (registerKeybinding w ExtInst.i1 k1 bid1) ExtInst.i2
      = aset w.base k1 bid1
    ∧ alookup (readKb (registerKeybinding
        (registerKeybinding w ExtInst.i1 k1 bid1) ExtInst.i2 k2 bid2)
        ExtInst.i1) k2 = some bid2
    ∧ (¬k1 = k2 → alookup (readKb (registerKeybinding
        (registerKeybinding w ExtInst.i1 k1 bid1) ExtInst.i2 k2 bid2)
        ExtInst.i1) k1 = some bid1)
    ∧ readKb (unregisterAllKeybindings (registerKeybinding
        (registerKeybinding w ExtInst.i1 k1 bid1) ExtInst.i2 k2 bid2)
        ExtInst.i1) ExtInst.i2 = [] := by
  have e1 := kb_flat_register w ExtInst.i1 k1 bid1 h1 h2 h3 h4
  have e2 : registerKeybinding (registerKeybinding w ExtInst.i1 k1 bid1)
      ExtInst.i2 k2 bid2
      = { w with base := aset (aset w.base k1 bid1) k2 bid2 } := by
    rw [e1]
    exact kb_flat_register { w with base := aset w.base k1 bid1 }
      ExtInst.i2 k2 bid2 h1 h2 h3 h4
  have hread2 : readKb { w with base := aset (aset w.base k1 bid1) k2 bid2 }
      ExtInst.i1 = aset (aset w.base k1 bid1) k2 bid2 :=
    kb_flat_read _ _ h1 h2 h3 h4
  refine ⟨?_, ?_, ?_, ?_⟩
  · rw [e1]
    exact kb_flat_read _ _ h1 h2 h3 h4
  · rw [e2, hread2]
    exact alookup_aset_self ..
  · intro hne
    rw [e2, hread2, alookup_aset_ne _ _ _ _ hne]
    exact alookup_aset_self ..
  · rw [e2]
    unfold unregisterAllKeybindings
    rw [hread2, kb_unreg_fold ExtInst.i1 (akeys (aset (aset w.base k1 bid1) k2 bid2))
      { w with base := aset (aset w.base k1 bid1) k2 bid2 } h1 h2 h3 h4,
      foldl_adel_self]
    exact kb_flat_read _ ExtInst.i2 h1 h2 h3 h4

/-- Witness for `claim_C10_shared_keybindings`: two bindings registered
through the two instances over an empty base dict. -/
theorem claim_C10_shared_keybindings_witness :
    readKb (registerKeybinding ⟨[], none, none, none, none⟩ ExtInst.i1
        "<Control-s>" "b1") ExtInst.i2 = aset [] "<Control-s>" "b1"
    ∧ alookup (readKb (registerKeybinding
        (registerKeybinding ⟨[], none, none, none, none⟩ ExtInst.i1 "<Control-s>" "b1")
        ExtInst.i2 "<F5>" "b2") ExtInst.i1) "<F5>" = some "b2"
    ∧ (¬"<Control-s>" = "<F5>" → alookup (readKb (registerKeybinding
        (registerKeybinding ⟨[], none, none, none, none⟩ ExtInst.i1 "<Control-s>" "b1")
        ExtInst.i2 "<F5>" "b2") ExtInst.i1) "<Control-s>" = some "b1")
    ∧ readKb (unregisterAllKeybindings (registerKeybinding
        (registerKeybinding ⟨[], none, none, none, none⟩ ExtInst.i1 "<Control-s>" "b1")
        ExtInst.i2 "<F5>" "b2") ExtInst.i1) ExtInst.i2 = [] :=
  claim_C10_shared_keybindings ⟨[], none, none, none, none⟩
    "<Control-s>" "b1" "<F5>" "b2" rfl rfl rfl rfl
